import Mathlib

/-!
# Verification of the hstr history ranking/deduplication engine

Shallow embedding of `src/hstr_history.c` (the scan/drain orchestrator
`get_prioritized_history` and the pure ranking function
`history_ranking_function`), together with models of its two collaborators
whose sources are not part of the repository snapshot (the radix "rank
sorter" and the hash set), modelled from the specification (spec §4.1, §4.2).

Modelling decisions, each tied to the C source:

* Machine integers: `unsigned` is 32 bits; the C conversion `long → unsigned`
  reduces modulo `2 ^ 32`.  `long` is wide enough for every value arising in
  the claims, so no separate 64-bit reduction is modelled.
* `history_ranking_function` computes `rank + log(n)*10.0 + length` in
  `double` and assigns it to a `long` (truncation toward zero, which on the
  non-negative values at hand is the floor).  The `double` arithmetic is
  idealized as exact real arithmetic.  For `n = 0`, `log(0)` is `-∞` and the
  conversion of `-∞` to `long` has no defined result (C11 6.3.1.4 / Annex F:
  the result is an unspecified value).  That single unspecified `long` is
  modelled by an explicit parameter `u`, threaded through the scan; during a
  scan it can only be consulted at loop index `0`.
* `#define NDEBUG` (line 15) precedes `#include <assert.h>`, so both
  `assert(metrics<UINT_MAX)` and `assert(radixItem)` are compiled out; the
  model therefore has no failure case for them.
* The raw-history array is written at descending offsets
  (`rawHistory[rawOffset] = line`, `rawOffset` counting down from
  `length - 1`); accumulating the lines with cons produces exactly that
  array read from index `0` upward.
* Strings are Lean `String`s (`data : List Char`); the C pointer advance
  `item += itemOffset` is character dropping (`stripOffset`), faithful for
  the single-byte characters of history lines.
-/

/-- One resident entry of the radix sorter: its current bucket key and the
(shared) ranking record it owns — the record's command text (`dataItem`,
doubling as the record's identity, since the scan creates at most one record
per distinct line) and the record's current rank (`dataRank`). -/
structure RadixItem where
  key : ℕ
  dataItem : String
  dataRank : ℕ
deriving DecidableEq, Repr

/-- The mutable state of the scan loop of `get_prioritized_history`:
the dedup index `rankmap` (association list, most recent binding first,
modelling in-place record mutation by shadowing), the radix sorter's
resident entries `rs` (most recently inserted first), and the raw-order
output built so far. -/
structure ScanState where
  rankmap : List (String × ℕ)
  rs : List RadixItem
  raw : List String
deriving DecidableEq, Repr

/-- The `HistoryItems` result of `get_prioritized_history`. -/
structure HistoryItems where
  items : List String
  raw : List String
  count : ℕ
  rawCount : ℕ
deriving DecidableEq, Repr

/-- `radixMaxKeyEstimate = historyState->size * 1000`, floored at `100000`
(line 126–127).  `historyState->size` (allocated slots) is modelled by the
entry count, its lower bound; the floor keeps the result at `100000` for
every log small enough to matter to the claims. -/
def radixMaxKey (n : ℕ) : ℕ :=
  if n * 1000 < 100000 then 100000 else n * 1000

/-- Modelled from the spec: `radixsort_add` of the missing radixsort source,
in the configuration the orchestrator selects (`optFloorAndInsertBigKeys =
true`, line 128): an entry with `key > maxKey` is clamped into the `maxKey`
bucket, otherwise it is prepended to bucket `key`'s chain (spec §4.2). -/
def radixsort_add (maxKey : ℕ) (item : RadixItem) (rs : List RadixItem) :
    List RadixItem :=
  (if maxKey < item.key then { item with key := maxKey } else item) :: rs

/-- Modelled from the spec: removal of the first entry of bucket `key`'s
chain whose record matches the given identity.  Chains are the
key-equal sublists of `rs` in order, so this is the first global match. -/
def cutChain (key : ℕ) (ident : String) :
    List RadixItem → Option (RadixItem × List RadixItem)
  | [] => none
  | it :: rest =>
    if it.key = key ∧ it.dataItem = ident then some (it, rest)
    else
      match cutChain key ident rest with
      | none => none
      | some (found, rest') => some (found, it :: rest')

/-- Modelled from the spec: `radix_cut(rs, key, data)` — locate and remove
the entry in bucket `key` matching the record identity; there is no bucket
beyond `maxKey`, so a larger key finds nothing (spec §4.2: `cut` fails when
the entry is not found at that key). -/
def radix_cut (maxKey key : ℕ) (ident : String) (rs : List RadixItem) :
    Option (RadixItem × List RadixItem) :=
  if maxKey < key then none else cutChain key ident rs

/-- Modelled from the spec: `radixsort_dump` — scan buckets `0..maxKey` in
ascending order, concatenating each bucket's chain (within a bucket, last
inserted first, the list order of `rs`) (spec §4.2). -/
def radixsort_dump (maxKey : ℕ) (rs : List RadixItem) : List RadixItem :=
  (List.range (maxKey + 1)).flatMap fun k => rs.filter fun it => it.key == k

/-- `history_ranking_function` (lines 37–43):
`long metrics = rank + (log(newOccurenceOrder)*10.0) + length;` returned as
`unsigned`.  `assert(metrics<UINT_MAX)` is compiled out by `NDEBUG`.
For `newOccurenceOrder = 0` the conversion of `log(0) = -∞` to `long`
yields the unspecified value `u` (reduced modulo `2 ^ 32` by the `unsigned`
return); otherwise the real-valued metrics is non-negative, the `long`
truncation is the floor, and the `unsigned` return reduces modulo `2 ^ 32`. -/
noncomputable def history_ranking_function (u : ℕ) (rank : ℕ)
    (newOccurenceOrder : ℕ) (len : ℕ) : ℕ :=
  if newOccurenceOrder = 0 then u % 2 ^ 32
  else (⌊(rank : ℝ) + Real.log newOccurenceOrder * 10 + (len : ℝ)⌋).toNat % 2 ^ 32

/-- The body of the scan loop (lines 136–165) for one line at loop index `i`:
record the line into the raw-order output; skip blacklisted lines; otherwise
create a ranking record (`hashset_get` missed) or cut-rescore-reinsert its
entry (`hashset_get` hit).  With `NDEBUG`, a `radix_cut` miss falls through
the disabled `assert` into the `if(radixItem)` guard and is silently
skipped. -/
noncomputable def scanStep (u : ℕ) (blacklist : List String) (maxKey : ℕ)
    (i : ℕ) (line : String) (st : ScanState) : ScanState :=
  if line ∈ blacklist then
    ⟨st.rankmap, st.rs, line :: st.raw⟩
  else
    match List.lookup line st.rankmap with
    | none =>
      let rank := history_ranking_function u 0 i line.length
      ⟨(line, rank) :: st.rankmap,
       radixsort_add maxKey ⟨rank, line, rank⟩ st.rs,
       line :: st.raw⟩
    | some r =>
      match radix_cut maxKey r line st.rs with
      | none => ⟨st.rankmap, st.rs, line :: st.raw⟩
      | some (_, rest) =>
        let newRank := history_ranking_function u r i line.length
        ⟨(line, newRank) :: st.rankmap,
         radixsort_add maxKey ⟨newRank, line, newRank⟩ rest,
         line :: st.raw⟩

/-- The scan loop `for(i=0; i<historyState->length; i++, rawOffset--)`
(lines 136–165), iterating the log oldest-to-newest from loop index `i`. -/
noncomputable def scanLog (u : ℕ) (blacklist : List String) (maxKey : ℕ) :
    ℕ → List String → ScanState → ScanState
  | _, [], st => st
  | i, line :: rest, st =>
    scanLog u blacklist maxKey (i + 1) rest
      (scanStep u blacklist maxKey i line st)

/-- The pointer advance `item += itemOffset` (line 178) on a history line. -/
def stripOffset (off : ℕ) (s : String) : String :=
  String.mk (s.data.drop off)

/-- The body of `get_prioritized_history` (lines 113–191), parametric in the
exclusion set: for a non-empty log, run the scan and drain the radix sorter
into the result (`items` in ascending-key order with the per-line offset
stripped, `raw` the raw-order array, `count = rs.size`,
`rawCount = historyState->length`); for an empty log return `NULL`. -/
noncomputable def prioritize (u : ℕ) (blacklist : List String)
    (itemOffset : ℕ) (log : List String) : Option HistoryItems :=
  if 0 < log.length then
    let maxKey := radixMaxKey log.length
    let st := scanLog u blacklist maxKey 0 log ⟨[], [], []⟩
    some
      { items :=
          (radixsort_dump maxKey st.rs).map fun it =>
            stripOffset itemOffset it.dataItem
        raw := st.raw
        count := st.rs.length
        rawCount := log.length }
  else none

/-- `commandBlacklist` (lines 26–29). -/
def commandBlacklist : List String :=
  ["ls", "pwd", "cd", "cd ..", "hh", "mc",
   "ls ", "pwd ", "cd ", "cd .. ", "hh ", "mc "]

/-- `get_prioritized_history` (lines 100–192) as a function of the in-memory
log, the item offset determined from the history file name, and the
unspecified-conversion value `u`; the exclusion set is the fixed
`commandBlacklist`. -/
noncomputable def get_prioritized_history (u : ℕ) (itemOffset : ℕ)
    (log : List String) : Option HistoryItems :=
  prioritize u commandBlacklist itemOffset log

/-- The ranking formula in the spec's words (§4.3):
`priorScore + round(10 * ln(occurrencePosition)) + textLength`, for
comparison with `history_ranking_function`. -/
noncomputable def spec_ranking_formula (priorScore occurrencePosition
    textLength : ℕ) : ℤ :=
  priorScore + round (10 * Real.log occurrencePosition) + textLength

/-! ## Arithmetic facts about the ranking function -/

theorem floor_log_two_mul_ten : ⌊Real.log 2 * 10⌋ = 6 := by
  have h1 := Real.log_two_gt_d9
  have h2 := Real.log_two_lt_d9
  rw [Int.floor_eq_iff]
  constructor
  · push_cast
    nlinarith
  · push_cast
    nlinarith

theorem round_ten_mul_log_two : round (10 * Real.log 2) = 7 := by
  have h1 := Real.log_two_gt_d9
  have h2 := Real.log_two_lt_d9
  rw [round_eq, Int.floor_eq_iff]
  constructor
  · push_cast
    nlinarith
  · push_cast
    nlinarith

/-- For a positive occurrence position the ranking function is
`(rank + ⌊10·ln p⌋ + len) mod 2^32`. -/
theorem history_ranking_function_pos (u rank len : ℕ) {p : ℕ} (hp : 1 ≤ p) :
    history_ranking_function u rank p len =
      (rank + (⌊Real.log p * 10⌋).toNat + len) % 2 ^ 32 := by
  have hp0 : p ≠ 0 := by omega
  have hlog : (0 : ℝ) ≤ Real.log p :=
    Real.log_nonneg (by exact_mod_cast hp)
  have hfl : (0 : ℤ) ≤ ⌊Real.log p * 10⌋ :=
    Int.floor_nonneg.mpr (by positivity)
  unfold history_ranking_function
  rw [if_neg hp0]
  congr 1
  have h1 : (rank : ℝ) + Real.log p * 10 + (len : ℝ)
      = Real.log p * 10 + ((rank + len : ℕ) : ℝ) := by
    push_cast
    ring
  rw [h1, Int.floor_add_nat]
  omega

theorem history_ranking_function_one (u rank len : ℕ) :
    history_ranking_function u rank 1 len = (rank + len) % 2 ^ 32 := by
  rw [history_ranking_function_pos u rank len (le_refl 1)]
  norm_num [Real.log_one]

theorem history_ranking_function_two (u rank len : ℕ) :
    history_ranking_function u rank 2 len = (rank + 6 + len) % 2 ^ 32 := by
  rw [history_ranking_function_pos u rank len (by norm_num : (1:ℕ) ≤ 2)]
  norm_num [floor_log_two_mul_ten]
  rfl

/-! ## Drain (radixsort_dump) machinery -/

theorem flatMap_pointwise_append_perm {α : Type} (L : List ℕ)
    (f g : ℕ → List α) :
    (L.flatMap fun k => f k ++ g k).Perm (L.flatMap f ++ L.flatMap g) := by
  induction L with
  | nil => simp
  | cons a L ih =>
    simp only [List.flatMap_cons]
    rw [← Multiset.coe_eq_coe] at ih ⊢
    simp only [← Multiset.coe_add] at ih ⊢
    rw [ih]
    abel

theorem range_flatMap_eq_single {α : Type} (n k : ℕ) (f : ℕ → List α)
    (hk : k < n) (hother : ∀ j, j < n → j ≠ k → f j = []) :
    (List.range n).flatMap f = f k := by
  induction n with
  | zero => omega
  | succ m ih =>
    rw [List.range_succ, List.flatMap_append]
    simp only [List.flatMap_cons, List.flatMap_nil, List.append_nil]
    rcases Nat.lt_succ_iff_lt_or_eq.mp hk with hlt | heq
    · rw [ih hlt fun j hj hne => hother j (by omega) hne,
        hother m (by omega) (by omega)]
      simp
    · subst heq
      have hnil : (List.range k).flatMap f = [] :=
        List.flatMap_eq_nil_iff.mpr fun j hj =>
          hother j (by have := List.mem_range.mp hj; omega)
            (by have := List.mem_range.mp hj; omega)
      rw [hnil]
      simp

theorem range_flatMap_eq_pair {α : Type} (n k₁ k₂ : ℕ) (f : ℕ → List α)
    (h12 : k₁ < k₂) (hk : k₂ < n)
    (hother : ∀ j, j < n → j ≠ k₁ → j ≠ k₂ → f j = []) :
    (List.range n).flatMap f = f k₁ ++ f k₂ := by
  induction n with
  | zero => omega
  | succ m ih =>
    rw [List.range_succ, List.flatMap_append]
    simp only [List.flatMap_cons, List.flatMap_nil, List.append_nil]
    rcases Nat.lt_succ_iff_lt_or_eq.mp hk with hlt | heq
    · rw [ih hlt fun j hj => hother j (by omega),
        hother m (by omega) (by omega) (by omega)]
      simp
    · subst heq
      rw [range_flatMap_eq_single k₂ k₁ f h12 fun j hj hne =>
        hother j (by omega) hne (by omega)]

theorem radixsort_dump_perm (maxKey : ℕ) :
    ∀ rs : List RadixItem, (∀ it ∈ rs, it.key ≤ maxKey) →
      (radixsort_dump maxKey rs).Perm rs := by
  intro rs
  induction rs with
  | nil =>
    intro _
    unfold radixsort_dump
    rw [List.flatMap_eq_nil_iff.mpr fun _ _ => List.filter_nil _]
  | cons it rest ih =>
    intro hkeys
    unfold radixsort_dump
    have hsplit : (fun k => List.filter (fun x => x.key == k) (it :: rest))
        = fun k => ((if it.key = k then [it] else []) ++
            List.filter (fun x => x.key == k) rest) := by
      funext k
      by_cases h : it.key = k
      · simp [List.filter_cons, h]
      · simp [List.filter_cons, h]
    rw [hsplit]
    refine (flatMap_pointwise_append_perm _ _ _).trans ?_
    have hsingle : ((List.range (maxKey + 1)).flatMap
        fun k => if it.key = k then [it] else []) = [it] := by
      rw [range_flatMap_eq_single (maxKey + 1) it.key
        (fun k => if it.key = k then [it] else [])
        (Nat.lt_succ_of_le (hkeys it (List.mem_cons_self it rest)))
        (fun j _ hne => if_neg fun h => hne h.symm)]
      simp
    rw [hsingle]
    have hfold : ((List.range (maxKey + 1)).flatMap
        fun k => List.filter (fun x => x.key == k) rest)
        = radixsort_dump maxKey rest := rfl
    rw [hfold]
    show (it :: radixsort_dump maxKey rest).Perm (it :: rest)
    exact (ih fun x hx => hkeys x (List.mem_cons_of_mem it hx)).cons it

theorem radixsort_dump_nil (maxKey : ℕ) : radixsort_dump maxKey [] = [] := by
  unfold radixsort_dump
  exact List.flatMap_eq_nil_iff.mpr fun _ _ => List.filter_nil _

/-! ## cutChain facts -/

theorem cutChain_spec {key : ℕ} {ident : String} :
    ∀ {rs it rest}, cutChain key ident rs = some (it, rest) →
      rs.Perm (it :: rest) ∧ it.dataItem = ident ∧ it.key = key := by
  intro rs
  induction rs with
  | nil => intro it rest h; simp [cutChain] at h
  | cons hd tl ih =>
    intro it rest h
    unfold cutChain at h
    by_cases hc : hd.key = key ∧ hd.dataItem = ident
    · rw [if_pos hc] at h
      simp only [Option.some.injEq, Prod.mk.injEq] at h
      obtain ⟨rfl, rfl⟩ := h
      exact ⟨List.Perm.refl _, hc.2, hc.1⟩
    · rw [if_neg hc] at h
      cases hrec : cutChain key ident tl with
      | none => rw [hrec] at h; simp at h
      | some p =>
        obtain ⟨found, rest'⟩ := p
        rw [hrec] at h
        simp only [Option.some.injEq, Prod.mk.injEq] at h
        obtain ⟨rfl, rfl⟩ := h
        obtain ⟨hperm, hident, hkey⟩ := ih hrec
        exact ⟨(hperm.cons hd).trans (List.Perm.swap _ _ _),
          hident, hkey⟩

theorem radix_cut_spec {maxKey key : ℕ} {ident : String}
    {rs : List RadixItem} {it : RadixItem} {rest : List RadixItem}
    (h : radix_cut maxKey key ident rs = some (it, rest)) :
    rs.Perm (it :: rest) ∧ it.dataItem = ident ∧ it.key = key := by
  unfold radix_cut at h
  by_cases hk : maxKey < key
  · rw [if_pos hk] at h; simp at h
  · rw [if_neg hk] at h; exact cutChain_spec h

/-! ## Branch equations for the scan step -/

theorem scanStep_blacklisted (u : ℕ) (bl : List String) (mk i : ℕ)
    (line : String) (st : ScanState) (h : line ∈ bl) :
    scanStep u bl mk i line st = ⟨st.rankmap, st.rs, line :: st.raw⟩ := by
  simp [scanStep, h]

theorem scanStep_new (u : ℕ) (bl : List String) (mk i : ℕ)
    (line : String) (st : ScanState) (h1 : line ∉ bl)
    (h2 : List.lookup line st.rankmap = none) :
    scanStep u bl mk i line st =
      ⟨(line, history_ranking_function u 0 i line.length) :: st.rankmap,
       radixsort_add mk
         ⟨history_ranking_function u 0 i line.length, line,
          history_ranking_function u 0 i line.length⟩ st.rs,
       line :: st.raw⟩ := by
  simp [scanStep, h1, h2]

theorem scanStep_miss (u : ℕ) (bl : List String) (mk i : ℕ)
    (line : String) (st : ScanState) {r : ℕ} (h1 : line ∉ bl)
    (h2 : List.lookup line st.rankmap = some r)
    (h3 : radix_cut mk r line st.rs = none) :
    scanStep u bl mk i line st = ⟨st.rankmap, st.rs, line :: st.raw⟩ := by
  simp [scanStep, h1, h2, h3]

theorem scanStep_hit (u : ℕ) (bl : List String) (mk i : ℕ)
    (line : String) (st : ScanState) {r : ℕ} {it : RadixItem}
    {rest : List RadixItem} (h1 : line ∉ bl)
    (h2 : List.lookup line st.rankmap = some r)
    (h3 : radix_cut mk r line st.rs = some (it, rest)) :
    scanStep u bl mk i line st =
      ⟨(line, history_ranking_function u r i line.length) :: st.rankmap,
       radixsort_add mk
         ⟨history_ranking_function u r i line.length, line,
          history_ranking_function u r i line.length⟩ rest,
       line :: st.raw⟩ := by
  simp [scanStep, h1, h2, h3]

/-! ## Raw-order output: structure of the accumulated array -/

theorem scanStep_raw (u : ℕ) (bl : List String) (mk i : ℕ) (line : String)
    (st : ScanState) :
    (scanStep u bl mk i line st).raw = line :: st.raw := by
  by_cases h1 : line ∈ bl
  · rw [scanStep_blacklisted u bl mk i line st h1]
  · cases h2 : List.lookup line st.rankmap with
    | none => rw [scanStep_new u bl mk i line st h1 h2]
    | some r =>
      cases h3 : radix_cut mk r line st.rs with
      | none => rw [scanStep_miss u bl mk i line st h1 h2 h3]
      | some p =>
        obtain ⟨it, rest⟩ := p
        rw [scanStep_hit u bl mk i line st h1 h2 h3]

theorem scanLog_raw (u : ℕ) (bl : List String) (mk : ℕ) :
    ∀ (log : List String) (i : ℕ) (st : ScanState),
      (scanLog u bl mk i log st).raw = log.reverse ++ st.raw := by
  intro log
  induction log with
  | nil => intro i st; simp [scanLog]
  | cons line rest ih =>
    intro i st
    show (scanLog u bl mk (i + 1) rest (scanStep u bl mk i line st)).raw = _
    rw [ih, scanStep_raw]
    simp

/-! ## The scan invariant: dedup-index / radix-sorter synchronisation -/

/-- The full command lines of the records resident in the radix sorter. -/
def rsLines (st : ScanState) : List String :=
  st.rs.map RadixItem.dataItem

/-- The structural invariant of the scan state: no two resident records
share a line, the dedup index is populated exactly on the resident lines,
and every resident entry sits in an existing bucket. -/
def ScanInv (mk : ℕ) (st : ScanState) : Prop :=
  (rsLines st).Nodup ∧
  (∀ l : String, (List.lookup l st.rankmap).isSome ↔ l ∈ rsLines st) ∧
  (∀ it ∈ st.rs, it.key ≤ mk)

theorem radixsort_add_lines (mk : ℕ) (item : RadixItem)
    (rs : List RadixItem) :
    (radixsort_add mk item rs).map RadixItem.dataItem =
      item.dataItem :: rs.map RadixItem.dataItem := by
  unfold radixsort_add
  by_cases h : mk < item.key
  · rw [if_pos h]; rfl
  · rw [if_neg h]; rfl

theorem radixsort_add_keys {mk : ℕ} {item : RadixItem}
    {rs : List RadixItem} (h : ∀ it ∈ rs, it.key ≤ mk) :
    ∀ it ∈ radixsort_add mk item rs, it.key ≤ mk := by
  intro x hx
  unfold radixsort_add at hx
  by_cases hk : mk < item.key
  · rw [if_pos hk] at hx
    rcases List.mem_cons.mp hx with rfl | hmem
    · exact le_refl mk
    · exact h x hmem
  · rw [if_neg hk] at hx
    rcases List.mem_cons.mp hx with rfl | hmem
    · omega
    · exact h x hmem

theorem lookup_cons_isSome {l line : String} {v : ℕ}
    {m : List (String × ℕ)} :
    (List.lookup l ((line, v) :: m)).isSome ↔
      l = line ∨ (List.lookup l m).isSome := by
  rcases eq_or_ne l line with rfl | h
  · simp [List.lookup_cons]
  · rw [List.lookup_cons]
    have : (l == line) = false := beq_eq_false_iff_ne.mpr h
    simp [this, h]

theorem scanStep_inv (u : ℕ) (bl : List String) (mk i : ℕ) (line : String)
    (st : ScanState) (h : ScanInv mk st) :
    ScanInv mk (scanStep u bl mk i line st) ∧
    (∀ l, l ∈ rsLines (scanStep u bl mk i line st) ↔
      (l = line ∧ line ∉ bl) ∨ l ∈ rsLines st) := by
  obtain ⟨hnd, hlk, hkeys⟩ := h
  by_cases h1 : line ∈ bl
  · rw [scanStep_blacklisted u bl mk i line st h1]
    refine ⟨⟨hnd, hlk, hkeys⟩, fun l => ?_⟩
    constructor
    · exact fun hm => Or.inr hm
    · rintro (⟨rfl, hnb⟩ | hm)
      · exact absurd h1 hnb
      · exact hm
  · cases h2 : List.lookup line st.rankmap with
    | none =>
      rw [scanStep_new u bl mk i line st h1 h2]
      have hnotin : line ∉ rsLines st := by
        intro hm
        have := (hlk line).mpr hm
        rw [h2] at this
        simp at this
      constructor
      · refine ⟨?_, ?_, ?_⟩
        · show ((radixsort_add mk _ st.rs).map RadixItem.dataItem).Nodup
          rw [radixsort_add_lines]
          exact List.Nodup.cons hnotin hnd
        · intro l
          show (List.lookup l ((line, _) :: st.rankmap)).isSome ↔
            l ∈ (radixsort_add mk _ st.rs).map RadixItem.dataItem
          rw [radixsort_add_lines, lookup_cons_isSome, List.mem_cons, hlk l]
          exact Iff.rfl
        · exact radixsort_add_keys hkeys
      · intro l
        show l ∈ (radixsort_add mk _ st.rs).map RadixItem.dataItem ↔ _
        rw [radixsort_add_lines, List.mem_cons]
        constructor
        · rintro (rfl | hm)
          · exact Or.inl ⟨rfl, h1⟩
          · exact Or.inr hm
        · rintro (⟨rfl, _⟩ | hm)
          · exact Or.inl rfl
          · exact Or.inr hm
    | some r =>
      have hin : line ∈ rsLines st := by
        apply (hlk line).mp
        rw [h2]
        simp
      cases h3 : radix_cut mk r line st.rs with
      | none =>
        rw [scanStep_miss u bl mk i line st h1 h2 h3]
        refine ⟨⟨hnd, hlk, hkeys⟩, fun l => ?_⟩
        constructor
        · exact fun hm => Or.inr hm
        · rintro (⟨rfl, _⟩ | hm)
          · exact hin
          · exact hm
      | some p =>
        obtain ⟨it, rest⟩ := p
        rw [scanStep_hit u bl mk i line st h1 h2 h3]
        obtain ⟨hperm, hident, _⟩ := radix_cut_spec h3
        have hlperm : (rsLines st).Perm
            (line :: rest.map RadixItem.dataItem) := by
          have := hperm.map RadixItem.dataItem
          rwa [List.map_cons, hident] at this
        have hndc : (line :: rest.map RadixItem.dataItem).Nodup :=
          (hlperm.nodup_iff).mp hnd
        have hrestkeys : ∀ x ∈ rest, x.key ≤ mk := fun x hx =>
          hkeys x (hperm.symm.subset (List.mem_cons_of_mem it hx))
        constructor
        · refine ⟨?_, ?_, ?_⟩
          · show ((radixsort_add mk _ rest).map RadixItem.dataItem).Nodup
            rw [radixsort_add_lines]
            exact (List.nodup_cons.mpr
              ⟨(List.nodup_cons.mp hndc).1, (List.nodup_cons.mp hndc).2⟩)
          · intro l
            show (List.lookup l ((line, _) :: st.rankmap)).isSome ↔
              l ∈ (radixsort_add mk _ rest).map RadixItem.dataItem
            rw [radixsort_add_lines, lookup_cons_isSome, List.mem_cons]
            rcases eq_or_ne l line with rfl | hne
            · simp
            · rw [hlk l]
              have := hlperm.mem_iff (a := l)
              rw [List.mem_cons] at this
              simp only [hne, false_or]
              rw [this]
              simp [hne]
          · exact radixsort_add_keys hrestkeys
        · intro l
          show l ∈ (radixsort_add mk _ rest).map RadixItem.dataItem ↔ _
          rw [radixsort_add_lines, List.mem_cons]
          have hmm := hlperm.mem_iff (a := l)
          rw [List.mem_cons] at hmm
          constructor
          · rintro (rfl | hm)
            · exact Or.inr hin
            · exact Or.inr (hmm.mpr (Or.inr hm))
          · rintro (⟨rfl, _⟩ | hm)
            · exact Or.inl rfl
            · rcases hmm.mp hm with rfl | hr
              · exact Or.inl rfl
              · exact Or.inr hr

theorem scanLog_inv (u : ℕ) (bl : List String) (mk : ℕ) :
    ∀ (log : List String) (i : ℕ) (st : ScanState), ScanInv mk st →
      ScanInv mk (scanLog u bl mk i log st) ∧
      (∀ l, l ∈ rsLines (scanLog u bl mk i log st) ↔
        (l ∈ log ∧ l ∉ bl) ∨ l ∈ rsLines st) := by
  intro log
  induction log with
  | nil =>
    intro i st h
    refine ⟨h, fun l => ?_⟩
    show l ∈ rsLines st ↔ _
    simp
  | cons line rest ih =>
    intro i st h
    obtain ⟨hinv', hmem'⟩ := scanStep_inv u bl mk i line st h
    obtain ⟨hinvL, hmemL⟩ := ih (i + 1) (scanStep u bl mk i line st) hinv'
    refine ⟨hinvL, fun l => ?_⟩
    show l ∈ rsLines (scanLog u bl mk (i + 1) rest
      (scanStep u bl mk i line st)) ↔ _
    rw [hmemL l, hmem' l, List.mem_cons]
    constructor
    · rintro (⟨hr, hnb⟩ | ⟨rfl, hnb⟩ | hm)
      · exact Or.inl ⟨Or.inr hr, hnb⟩
      · exact Or.inl ⟨Or.inl rfl, hnb⟩
      · exact Or.inr hm
    · rintro (⟨rfl | hr, hnb⟩ | hm)
      · exact Or.inr (Or.inl ⟨rfl, hnb⟩)
      · exact Or.inl ⟨hr, hnb⟩
      · exact Or.inr (Or.inr hm)

/-- The empty scan state the orchestrator starts from. -/
def scanInit : ScanState := ⟨[], [], []⟩

theorem scanInv_init (mk : ℕ) : ScanInv mk scanInit := by
  refine ⟨List.nodup_nil, fun l => ?_, fun it h => absurd h (List.not_mem_nil it)⟩
  show (List.lookup l []).isSome ↔ l ∈ ([] : List String)
  simp [List.lookup]

theorem prioritize_some_iff {u : ℕ} {bl : List String} {off : ℕ}
    {log : List String} {h : HistoryItems} :
    prioritize u bl off log = some h ↔
      0 < log.length ∧
      h = { items := (radixsort_dump (radixMaxKey log.length)
              (scanLog u bl (radixMaxKey log.length) 0 log scanInit).rs).map
                fun it => stripOffset off it.dataItem
            raw := (scanLog u bl (radixMaxKey log.length) 0 log scanInit).raw
            count := (scanLog u bl (radixMaxKey log.length) 0 log
              scanInit).rs.length
            rawCount := log.length } := by
  unfold prioritize
  by_cases hl : 0 < log.length
  · rw [if_pos hl]
    simp only [Option.some.injEq]
    constructor
    · intro he
      exact ⟨hl, he.symm⟩
    · intro ⟨_, he⟩
      exact he.symm
  · rw [if_neg hl]
    simp [hl]

theorem prioritize_none_iff {u : ℕ} {bl : List String} {off : ℕ}
    {log : List String} :
    prioritize u bl off log = none ↔ log = [] := by
  unfold prioritize
  by_cases hl : 0 < log.length
  · rw [if_pos hl]
    constructor
    · intro he
      exact Option.noConfusion he
    · intro he
      rw [he] at hl
      simp at hl
  · rw [if_neg hl]
    have : log = [] := List.eq_nil_of_length_eq_zero (by omega)
    simp [this]

/-! ## Concrete run: a two-line, fully blacklisted log -/

theorem eval_two_blacklisted :
    prioritize 0 commandBlacklist 0 ["ls", "pwd"]
      = some ⟨[], ["pwd", "ls"], 0, 2⟩ := by
  have hls : ("ls" : String) ∈ commandBlacklist := by decide
  have hpwd : ("pwd" : String) ∈ commandBlacklist := by decide
  have h1 : scanLog 0 commandBlacklist
      (radixMaxKey (["ls", "pwd"] : List String).length) 0 ["ls", "pwd"]
      scanInit = ⟨[], [], ["pwd", "ls"]⟩ := by
    simp only [scanLog]
    rw [scanStep_blacklisted _ _ _ _ _ _ hls,
      scanStep_blacklisted _ _ _ _ _ _ hpwd]
    rfl
  refine prioritize_some_iff.mpr ⟨by norm_num, ?_⟩
  rw [h1]
  simp [radixsort_dump_nil]

/-! ## C1 -/

/-- C1, counterexample: for the log `["ls", "pwd"]` the scan succeeds and its
raw-order output is `["pwd", "ls"]` — the `rawHistory` array is written at
descending offsets (lines 133–138), so `rawOutput[0] ≠ inputLog[0]`: the
raw output is not element-for-element identical to the input log. -/
theorem c1_raw_order_counterexample :
    prioritize 0 commandBlacklist 0 ["ls", "pwd"]
        = some ⟨[], ["pwd", "ls"], 0, 2⟩ ∧
      (["pwd", "ls"] : List String)[0]? ≠ (["ls", "pwd"] : List String)[0]? :=
  ⟨eval_two_blacklisted, by decide⟩

/-- C1, amended: the raw-order output of every successful run is the input
log reversed — `rawOutput[i] = inputLog[n - 1 - i]`, newest line first — not
the input log in its own order. -/
theorem c1_raw_output_is_reversed_log (u : ℕ) (bl : List String) (off : ℕ)
    (log : List String) (h : HistoryItems)
    (hp : prioritize u bl off log = some h) :
    h.raw = log.reverse ∧
    ∀ i, i < log.length → h.raw[i]? = log[log.length - 1 - i]? := by
  have hraw : h.raw = log.reverse := by
    rw [(prioritize_some_iff.mp hp).2]
    show (scanLog u bl (radixMaxKey log.length) 0 log scanInit).raw = _
    rw [scanLog_raw]
    simp [scanInit]
  refine ⟨hraw, fun i hi => ?_⟩
  rw [hraw]
  exact List.getElem?_reverse hi

/-- Witness for `c1_raw_output_is_reversed_log` at the log `["ls", "pwd"]`. -/
theorem c1_raw_output_is_reversed_log_witness :
    (⟨[], ["pwd", "ls"], 0, 2⟩ : HistoryItems).raw
        = (["ls", "pwd"] : List String).reverse ∧
      ∀ i, i < (["ls", "pwd"] : List String).length →
        (⟨[], ["pwd", "ls"], 0, 2⟩ : HistoryItems).raw[i]?
          = (["ls", "pwd"] : List String)[(["ls", "pwd"] : List String).length - 1 - i]? :=
  c1_raw_output_is_reversed_log 0 commandBlacklist 0 ["ls", "pwd"] _
    eval_two_blacklisted

/-! ## C2 -/

/-- C2, counterexample: at `priorScore = 0`, `occurrencePosition = 2`,
`textLength = 1` the code computes `⌊0 + 10·ln 2 + 1⌋ = 7` (the `long`
assignment truncates), while the spec's formula
`0 + round(10·ln 2) + 1 = 0 + 7 + 1 = 8` rounds to nearest: the claimed
formula does not match the code. -/
theorem c2_rounding_counterexample :
    history_ranking_function 0 0 2 1 = 7 ∧
      spec_ranking_formula 0 2 1 = 8 ∧
      (history_ranking_function 0 0 2 1 : ℤ) ≠ spec_ranking_formula 0 2 1 := by
  have h1 : history_ranking_function 0 0 2 1 = 7 := by
    rw [history_ranking_function_two]
    norm_num
  have h2 : spec_ranking_formula 0 2 1 = 8 := by
    unfold spec_ranking_formula
    push_cast
    rw [round_ten_mul_log_two]
    norm_num
  refine ⟨h1, h2, ?_⟩
  rw [h1, h2]
  norm_num

/-- C2, amended: for every `occurrencePosition ≥ 1` the function returns
`priorScore + ⌊10·ln(occurrencePosition)⌋ + textLength` reduced modulo
`2^32` — the real-valued term is floored (the `long` truncation of a
non-negative value), not rounded to nearest, and the `unsigned` return
wraps. -/
theorem c2_rank_formula_floor (u rank len : ℕ) {p : ℕ} (hp : 1 ≤ p) :
    history_ranking_function u rank p len =
      (rank + (⌊10 * Real.log p⌋).toNat + len) % 2 ^ 32 := by
  rw [history_ranking_function_pos u rank len hp, mul_comm (Real.log (p : ℝ)) 10]

/-- Witness for `c2_rank_formula_floor`: at `(0, 2, 1)` it evaluates to
`(0 + 6 + 1) % 2^32 = 7`. -/
theorem c2_rank_formula_floor_witness : history_ranking_function 0 0 2 1 = 7 := by
  rw [c2_rank_formula_floor 0 0 1 (by norm_num : (1 : ℕ) ≤ 2)]
  have hc : ((2 : ℕ) : ℝ) = 2 := by norm_num
  rw [hc, mul_comm (10 : ℝ) (Real.log 2), floor_log_two_mul_ten]
  norm_num
  rfl

/-! ## C3 -/

/-- C3, counterexample: with `priorScore = 2^32 - 1`, position `1` and
`textLength = 1` the recomputed metrics is exactly `2^32 = UINT_MAX + 1`,
yet the function returns the wrapped score `0` and does not fail:
`assert(metrics<UINT_MAX)` is compiled out by the `#define NDEBUG` on
line 15. -/
theorem c3_overflow_wrap_counterexample :
    history_ranking_function 0 (2 ^ 32 - 1) 1 1 = 0 ∧
      (2 ^ 32 - 1) + 1 = 2 ^ 32 := by
  constructor
  · rw [history_ranking_function_one]
    norm_num
  · norm_num

/-- C3, amended: with `NDEBUG` defined the overflow assertion is compiled
out; whenever the recomputed metrics reaches `2^32` the function silently
returns it reduced modulo `2^32` — a wrapped score strictly below the true
metrics — instead of failing. -/
theorem c3_overflow_wraps_modulo (u rank len : ℕ) {p : ℕ} (hp : 1 ≤ p)
    (hov : 2 ^ 32 ≤ rank + (⌊Real.log p * 10⌋).toNat + len) :
    history_ranking_function u rank p len
        = (rank + (⌊Real.log p * 10⌋).toNat + len) % 2 ^ 32 ∧
      history_ranking_function u rank p len
        < rank + (⌊Real.log p * 10⌋).toNat + len := by
  have h := history_ranking_function_pos u rank len hp
  refine ⟨h, ?_⟩
  rw [h]
  have hm : (rank + (⌊Real.log p * 10⌋).toNat + len) % 2 ^ 32 < 2 ^ 32 :=
    Nat.mod_lt _ (by norm_num)
  omega

/-- Witness for `c3_overflow_wraps_modulo` at `(2^32 - 1, 1, 1)`. -/
theorem c3_overflow_wraps_modulo_witness :
    history_ranking_function 0 (2 ^ 32 - 1) 1 1
        = ((2 ^ 32 - 1) + (⌊Real.log ((1 : ℕ) : ℝ) * 10⌋).toNat + 1) % 2 ^ 32 ∧
      history_ranking_function 0 (2 ^ 32 - 1) 1 1
        < (2 ^ 32 - 1) + (⌊Real.log ((1 : ℕ) : ℝ) * 10⌋).toNat + 1 :=
  c3_overflow_wraps_modulo 0 (2 ^ 32 - 1) 1 (le_refl 1)
    (by norm_num [Real.log_one])

/-! ## C5 -/

/-- C5, counterexample: at occurrence position `0` the code computes
`log(0) = -∞` and converts it to `long`, a conversion with no defined
result; two admissible executions (unspecified value `0` and unspecified
value `1`) return different "scores" for the same arguments, so the
function has no explicit boundary policy and no well-defined result
there. -/
theorem c5_position_zero_counterexample :
    history_ranking_function 0 0 0 5 = 0 ∧
      history_ranking_function 1 0 0 5 = 1 ∧
      (0 : ℕ) ≠ 1 := by
  refine ⟨?_, ?_, by norm_num⟩
  · unfold history_ranking_function
    norm_num
  · unfold history_ranking_function
    norm_num

/-- C5, amended: at occurrence position `0` the returned value is the
unspecified `long` obtained from converting `log(0) = -∞`, reduced modulo
`2^32`; it ignores both the prior score and the text length — there is no
boundary policy in the code. -/
theorem c5_position_zero_unspecified (u r₁ l₁ r₂ l₂ : ℕ) :
    history_ranking_function u r₁ 0 l₁ = u % 2 ^ 32 ∧
      history_ranking_function u r₁ 0 l₁
        = history_ranking_function u r₂ 0 l₂ := by
  unfold history_ranking_function
  simp

/-! ## Consequences of the invariant for a whole run -/

theorem scanLog_final_inv (u : ℕ) (bl : List String) (mk : ℕ)
    (log : List String) :
    ScanInv mk (scanLog u bl mk 0 log scanInit) ∧
    (∀ l, l ∈ rsLines (scanLog u bl mk 0 log scanInit) ↔
      l ∈ log ∧ l ∉ bl) := by
  obtain ⟨hinv, hmem⟩ := scanLog_inv u bl mk log 0 scanInit (scanInv_init mk)
  refine ⟨hinv, fun l => ?_⟩
  rw [hmem l]
  have hnil : l ∈ rsLines scanInit ↔ False := by
    simp [rsLines, scanInit]
  rw [hnil, or_false]

theorem stripOffset_zero (s : String) : stripOffset 0 s = s := by
  cases s with
  | mk d => simp [stripOffset]

/-- Core counting fact: a duplicate-free list `M` whose members are exactly
the non-excluded lines of `log` is never longer than `log`, and has the
same length exactly when nothing is excluded and `log` itself is
duplicate-free. -/
theorem nodup_members_length {M log bl : List String} (hnd : M.Nodup)
    (hmem : ∀ l, l ∈ M ↔ l ∈ log ∧ l ∉ bl) :
    M.length ≤ log.length ∧
    (M.length = log.length ↔ (∀ l ∈ log, l ∉ bl) ∧ log.Nodup) := by
  have hsub : M.toFinset ⊆ log.toFinset := by
    intro x hx
    rw [List.mem_toFinset] at hx ⊢
    exact ((hmem x).mp hx).1
  have hMcard : M.toFinset.card = M.length := List.toFinset_card_of_nodup hnd
  have hcardle : M.toFinset.card ≤ log.toFinset.card := Finset.card_le_card hsub
  have hlogcard : log.toFinset.card ≤ log.length := List.toFinset_card_le log
  have hle : M.length ≤ log.length := by omega
  refine ⟨hle, ?_, ?_⟩
  · intro heq
    have hcards : log.toFinset.card = log.length ∧
        M.toFinset.card = log.toFinset.card := by omega
    have hdedup : log.dedup.length = log.length := by
      have := List.card_toFinset log
      omega
    have hlognd : log.Nodup := by
      have hde : log.dedup = log :=
        (List.dedup_sublist log).eq_of_length hdedup
      rw [← hde]
      exact List.nodup_dedup log
    refine ⟨fun l hl => ?_, hlognd⟩
    have hfeq : M.toFinset = log.toFinset :=
      Finset.eq_of_subset_of_card_le hsub (by omega)
    have hlM : l ∈ M := by
      rw [← List.mem_toFinset, hfeq, List.mem_toFinset]
      exact hl
    exact ((hmem l).mp hlM).2
  · rintro ⟨hbl, hlognd⟩
    have hfeq : M.toFinset = log.toFinset := by
      ext x
      rw [List.mem_toFinset, List.mem_toFinset, hmem x]
      exact ⟨fun h => h.1, fun h => ⟨h, hbl x h⟩⟩
    have hlogcard' : log.toFinset.card = log.length :=
      List.toFinset_card_of_nodup hlognd
    rw [← hMcard, hfeq, hlogcard']

/-! ## C7 -/

/-- C7, confirmed: for every successful run the drained sequence is at most
as long as the raw log, with equality exactly when no line is excluded and
all lines are pairwise distinct. -/
theorem c7_length_invariant (u : ℕ) (bl : List String) (off : ℕ)
    (log : List String) (h : HistoryItems)
    (hp : prioritize u bl off log = some h) :
    h.items.length ≤ log.length ∧
    (h.items.length = log.length ↔ (∀ l ∈ log, l ∉ bl) ∧ log.Nodup) := by
  obtain ⟨hl, rfl⟩ := prioritize_some_iff.mp hp
  obtain ⟨⟨hnd, hlk, hkeys⟩, hmem⟩ :=
    scanLog_final_inv u bl (radixMaxKey log.length) log
  have hitems : ((radixsort_dump (radixMaxKey log.length)
      (scanLog u bl (radixMaxKey log.length) 0 log scanInit).rs).map
        fun it => stripOffset off it.dataItem).length
      = (rsLines (scanLog u bl (radixMaxKey log.length) 0 log
          scanInit)).length := by
    rw [List.length_map,
      (radixsort_dump_perm (radixMaxKey log.length) _ hkeys).length_eq]
    exact (List.length_map _ _).symm
  have hcore := nodup_members_length hnd hmem
  show ((radixsort_dump (radixMaxKey log.length)
      (scanLog u bl (radixMaxKey log.length) 0 log scanInit).rs).map
        fun it => stripOffset off it.dataItem).length ≤ log.length ∧ _
  rw [hitems]
  exact hcore

/-- Witness for `c7_length_invariant` at the fully blacklisted log
`["ls", "pwd"]`: `0 ≤ 2`, and `0 = 2` is indeed equivalent to the (false)
right-hand side since `"ls"` is excluded. -/
theorem c7_length_invariant_witness :
    (⟨[], ["pwd", "ls"], 0, 2⟩ : HistoryItems).items.length
        ≤ (["ls", "pwd"] : List String).length ∧
      ((⟨[], ["pwd", "ls"], 0, 2⟩ : HistoryItems).items.length
          = (["ls", "pwd"] : List String).length ↔
        (∀ l ∈ (["ls", "pwd"] : List String), l ∉ commandBlacklist) ∧
          (["ls", "pwd"] : List String).Nodup) :=
  c7_length_invariant 0 commandBlacklist 0 ["ls", "pwd"] _
    eval_two_blacklisted

/-! ## C8 -/

/-- C8, confirmed: the run returns the absent result (`NULL`) exactly for an
empty log; a non-empty log whose lines are all excluded yields a present
result with an empty, zero-length drained sequence. -/
theorem c8_empty_vs_all_excluded (u : ℕ) (bl : List String) (off : ℕ)
    (log : List String) :
    (prioritize u bl off log = none ↔ log = []) ∧
    (log ≠ [] → (∀ l ∈ log, l ∈ bl) →
      ∃ h, prioritize u bl off log = some h ∧
        h.items = [] ∧ h.count = 0) := by
  refine ⟨prioritize_none_iff, fun hne hall => ?_⟩
  obtain ⟨⟨hnd, hlk, hkeys⟩, hmem⟩ :=
    scanLog_final_inv u bl (radixMaxKey log.length) log
  have hrs : (scanLog u bl (radixMaxKey log.length) 0 log scanInit).rs
      = [] := by
    have hlines : rsLines (scanLog u bl (radixMaxKey log.length) 0 log
        scanInit) = [] := by
      rw [List.eq_nil_iff_forall_not_mem]
      intro l hl
      obtain ⟨hlog, hnb⟩ := (hmem l).mp hl
      exact hnb (hall l hlog)
    exact List.map_eq_nil_iff.mp hlines
  refine ⟨⟨[], (scanLog u bl (radixMaxKey log.length) 0 log scanInit).raw,
    0, log.length⟩, ?_, rfl, rfl⟩
  refine prioritize_some_iff.mpr ⟨List.length_pos.mpr hne, ?_⟩
  rw [hrs, radixsort_dump_nil]
  rfl

/-- Witness for `c8_empty_vs_all_excluded`: the one-line log `["ls"]`, whose
only line is blacklisted, yields a present result with no items. -/
theorem c8_empty_vs_all_excluded_witness :
    ∃ h, prioritize 0 commandBlacklist 0 ["ls"] = some h ∧
      h.items = [] ∧ h.count = 0 :=
  (c8_empty_vs_all_excluded 0 commandBlacklist 0 ["ls"]).2 (by simp)
    (fun l hl => by
      rcases List.mem_singleton.mp hl with rfl
      decide)

/-! ## Concrete run: a zsh-style log with two lines differing only in their
timestamp (item offset 15) -/

/-- A zsh history line (`: <timestamp>:0;<cmd>`, 15-character item offset)
whose command is `ab`. -/
def zline₁ : String := ": 1420549651:0;ab"

/-- A second zsh history line with the same command `ab` but a different
timestamp, hence a different full line. -/
def zline₂ : String := ": 1420549652:0;ab"

theorem eval_zsh_run :
    prioritize 0 commandBlacklist 15 ["ls", zline₁, zline₂]
      = some ⟨["ab", "ab"], [zline₂, zline₁, "ls"], 2, 3⟩ := by
  have hls : ("ls" : String) ∈ commandBlacklist := by decide
  have hz1 : zline₁ ∉ commandBlacklist := by decide
  have hz2 : zline₂ ∉ commandBlacklist := by decide
  have hmk : radixMaxKey (["ls", zline₁, zline₂] : List String).length
      = 100000 := by decide
  have h0 : scanStep 0 commandBlacklist 100000 0 "ls" scanInit
      = ⟨[], [], ["ls"]⟩ := by
    rw [scanStep_blacklisted _ _ _ _ _ _ hls]
    rfl
  have hr1 : history_ranking_function 0 0 1 zline₁.length = 17 := by
    rw [history_ranking_function_one]
    decide
  have h1 : scanStep 0 commandBlacklist 100000 1 zline₁ ⟨[], [], ["ls"]⟩
      = ⟨[(zline₁, 17)], [⟨17, zline₁, 17⟩], [zline₁, "ls"]⟩ := by
    rw [scanStep_new 0 commandBlacklist 100000 1 zline₁ ⟨[], [], ["ls"]⟩
      hz1 rfl, hr1]
    norm_num [radixsort_add]
  have hlk2 : List.lookup zline₂ [(zline₁, 17)] = none := by decide
  have hr2 : history_ranking_function 0 0 2 zline₂.length = 23 := by
    rw [history_ranking_function_two]
    decide
  have h2 : scanStep 0 commandBlacklist 100000 2 zline₂
      ⟨[(zline₁, 17)], [⟨17, zline₁, 17⟩], [zline₁, "ls"]⟩
      = ⟨[(zline₂, 23), (zline₁, 17)],
         [⟨23, zline₂, 23⟩, ⟨17, zline₁, 17⟩], [zline₂, zline₁, "ls"]⟩ := by
    rw [scanStep_new 0 commandBlacklist 100000 2 zline₂
      ⟨[(zline₁, 17)], [⟨17, zline₁, 17⟩], [zline₁, "ls"]⟩ hz2 hlk2, hr2]
    norm_num [radixsort_add]
  have hscan : scanLog 0 commandBlacklist 100000 0 ["ls", zline₁, zline₂]
      scanInit
      = ⟨[(zline₂, 23), (zline₁, 17)],
         [⟨23, zline₂, 23⟩, ⟨17, zline₁, 17⟩], [zline₂, zline₁, "ls"]⟩ := by
    simp only [scanLog]
    rw [h0, h1, h2]
  have hdump : radixsort_dump 100000
      [⟨23, zline₂, 23⟩, ⟨17, zline₁, 17⟩]
      = [⟨17, zline₁, 17⟩, ⟨23, zline₂, 23⟩] := by
    unfold radixsort_dump
    rw [range_flatMap_eq_pair (100000 + 1) 17 23 _ (by norm_num)
      (by norm_num) ?other]
    case other =>
      intro j hj h17 h23
      have e23 : ((23 : ℕ) == j) = false :=
        beq_eq_false_iff_ne.mpr fun h => h23 h.symm
      have e17 : ((17 : ℕ) == j) = false :=
        beq_eq_false_iff_ne.mpr fun h => h17 h.symm
      simp [List.filter_cons, e23, e17]
    decide
  refine prioritize_some_iff.mpr ⟨by norm_num, ?_⟩
  rw [hmk, hscan, hdump]
  decide

/-! ## C6 -/

/-- C6, counterexample: with the zsh item offset 15, the two distinct full
lines `zline₁` and `zline₂` (same command `ab`, different timestamps) both
survive deduplication — dedup keys on the full line (line 142) while the
drained items are offset-stripped (line 178) — so the drained result
contains the text `"ab"` twice. -/
theorem c6_dedup_counterexample :
    prioritize 0 commandBlacklist 15 ["ls", zline₁, zline₂]
        = some ⟨["ab", "ab"], [zline₂, zline₁, "ls"], 2, 3⟩ ∧
      ¬ (["ab", "ab"] : List String).Nodup :=
  ⟨eval_zsh_run, by decide⟩

/-- C6, amended: the drained items are the offset-stripped images of a
duplicate-free list of full command lines; in particular, whenever the item
offset is `0` (non-zsh histories) no command text appears twice in the
drained result. -/
theorem c6_dedup_full_lines (u : ℕ) (bl : List String) (off : ℕ)
    (log : List String) (h : HistoryItems)
    (hp : prioritize u bl off log = some h) :
    (∃ full : List String, full.Nodup ∧
      h.items = full.map (stripOffset off)) ∧
    (off = 0 → h.items.Nodup) := by
  obtain ⟨hl, rfl⟩ := prioritize_some_iff.mp hp
  obtain ⟨⟨hnd, hlk, hkeys⟩, hmem⟩ :=
    scanLog_final_inv u bl (radixMaxKey log.length) log
  have hperm := radixsort_dump_perm (radixMaxKey log.length)
    (scanLog u bl (radixMaxKey log.length) 0 log scanInit).rs hkeys
  have hfullnd : ((radixsort_dump (radixMaxKey log.length)
      (scanLog u bl (radixMaxKey log.length) 0 log scanInit).rs).map
        RadixItem.dataItem).Nodup :=
    ((hperm.map RadixItem.dataItem).nodup_iff).mpr hnd
  constructor
  · refine ⟨(radixsort_dump (radixMaxKey log.length)
      (scanLog u bl (radixMaxKey log.length) 0 log scanInit).rs).map
        RadixItem.dataItem, hfullnd, ?_⟩
    show (radixsort_dump (radixMaxKey log.length)
      (scanLog u bl (radixMaxKey log.length) 0 log scanInit).rs).map
        (fun it => stripOffset off it.dataItem) = _
    rw [List.map_map]
    rfl
  · intro h0
    subst h0
    have hfun : (fun it : RadixItem => stripOffset 0 it.dataItem)
        = RadixItem.dataItem := by
      funext it
      exact stripOffset_zero it.dataItem
    show ((radixsort_dump (radixMaxKey log.length)
      (scanLog u bl (radixMaxKey log.length) 0 log scanInit).rs).map
        fun it => stripOffset 0 it.dataItem).Nodup
    rw [hfun]
    exact hfullnd

/-- Witness for `c6_dedup_full_lines` at the fully blacklisted log
`["ls", "pwd"]` with offset `0`. -/
theorem c6_dedup_full_lines_witness :
    (∃ full : List String, full.Nodup ∧
      (⟨[], ["pwd", "ls"], 0, 2⟩ : HistoryItems).items
        = full.map (stripOffset 0)) ∧
    ((0 : ℕ) = 0 → (⟨[], ["pwd", "ls"], 0, 2⟩ : HistoryItems).items.Nodup) :=
  c6_dedup_full_lines 0 commandBlacklist 0 ["ls", "pwd"] _
    eval_two_blacklisted

/-! ## C9 -/

/-- C9, counterexample: scanning `["ls", zline₁]` (zsh offset 15) creates
the record for `zline₁` with `text` the **full** line `zline₁` (line 145:
`r->item=historyList[i]->line`) and rank `17 = 0 + ⌊10·ln 1⌋ + 17` computed
from the **full** length `strlen(line) = 17` (line 144); had the claimed
stripped text `"ab"` been used, the text would be `"ab"` and the rank
`2 = 0 + ⌊10·ln 1⌋ + 2`.  Stripping happens only at drain. -/
theorem c9_record_uses_full_line_counterexample :
    scanLog 0 commandBlacklist (radixMaxKey 2) 0 ["ls", zline₁] scanInit
        = ⟨[(zline₁, 17)], [⟨17, zline₁, 17⟩], [zline₁, "ls"]⟩ ∧
      zline₁.length = 17 ∧
      stripOffset 15 zline₁ = "ab" ∧
      ("ab" : String).length = 2 ∧
      history_ranking_function 0 0 1 ("ab" : String).length = 2 ∧
      (17 : ℕ) ≠ 2 := by
  have hls : ("ls" : String) ∈ commandBlacklist := by decide
  have hz1 : zline₁ ∉ commandBlacklist := by decide
  have hr1 : history_ranking_function 0 0 1 zline₁.length = 17 := by
    rw [history_ranking_function_one]
    decide
  have hmk : radixMaxKey 2 = 100000 := by decide
  refine ⟨?_, by decide, by decide, by decide, ?_, by decide⟩
  · simp only [scanLog]
    rw [hmk, scanStep_blacklisted _ _ _ _ _ _ hls]
    have h1 : scanStep 0 commandBlacklist 100000 1 zline₁
        ⟨scanInit.rankmap, scanInit.rs, "ls" :: scanInit.raw⟩
        = ⟨[(zline₁, 17)], [⟨17, zline₁, 17⟩], [zline₁, "ls"]⟩ := by
      rw [scanStep_new 0 commandBlacklist 100000 1 zline₁
        ⟨scanInit.rankmap, scanInit.rs, "ls" :: scanInit.raw⟩ hz1 rfl, hr1]
      norm_num [radixsort_add]
      exact ⟨rfl, rfl, rfl⟩
    rw [h1]
  · rw [history_ranking_function_one]
    decide

/-- C9, amended: every drained item is some (full) input-log line, not
excluded, with the first `itemOffset` characters removed — stripping is
applied only when the drain result is materialised, while the record itself
carries the full line (and the full line's length fed the ranking). -/
theorem c9_items_are_stripped_log_lines (u : ℕ) (bl : List String)
    (off : ℕ) (log : List String) (h : HistoryItems)
    (hp : prioritize u bl off log = some h) :
    ∀ s ∈ h.items, ∃ l, l ∈ log ∧ l ∉ bl ∧ s = stripOffset off l := by
  obtain ⟨hl, rfl⟩ := prioritize_some_iff.mp hp
  obtain ⟨⟨hnd, hlk, hkeys⟩, hmem⟩ :=
    scanLog_final_inv u bl (radixMaxKey log.length) log
  have hperm := radixsort_dump_perm (radixMaxKey log.length)
    (scanLog u bl (radixMaxKey log.length) 0 log scanInit).rs hkeys
  intro s hs
  rw [show (⟨_, _, _, _⟩ : HistoryItems).items
      = (radixsort_dump (radixMaxKey log.length)
          (scanLog u bl (radixMaxKey log.length) 0 log scanInit).rs).map
            (fun it => stripOffset off it.dataItem) from rfl] at hs
  obtain ⟨it, hit, hsit⟩ := List.mem_map.mp hs
  have hitrs : it ∈ (scanLog u bl (radixMaxKey log.length) 0 log
      scanInit).rs := hperm.subset hit
  have hline : it.dataItem ∈ rsLines (scanLog u bl (radixMaxKey log.length)
      0 log scanInit) := List.mem_map.mpr ⟨it, hitrs, rfl⟩
  obtain ⟨hlog, hnb⟩ := (hmem it.dataItem).mp hline
  exact ⟨it.dataItem, hlog, hnb, hsit.symm⟩

/-- Witness for `c9_items_are_stripped_log_lines` on the zsh run: the
drained item `"ab"` is a full log line with 15 characters dropped. -/
theorem c9_items_are_stripped_log_lines_witness :
    ∃ l, l ∈ (["ls", zline₁, zline₂] : List String) ∧
      l ∉ commandBlacklist ∧ ("ab" : String) = stripOffset 15 l :=
  c9_items_are_stripped_log_lines 0 commandBlacklist 15
    ["ls", zline₁, zline₂] _ eval_zsh_run "ab" (by decide)

/-! ## Concrete run: a very long line whose rank exceeds the bucket range -/

/-- A 200001-character command line: its first-occurrence rank `200001`
exceeds `maxKey = 100000`, so its entry is clamped into bucket `100000`
while the record's tracked rank stays `200001` — the desynchronisation that
makes the subsequent `radix_cut` at the tracked key miss. -/
def bigLine : String := String.mk (List.replicate 200001 'a')

theorem bigLine_length : bigLine.length = 200001 := by
  show (String.mk (List.replicate 200001 'a')).length = 200001
  rw [String.length_mk]
  exact List.length_replicate 200001 'a'

theorem bigLine_ne_ls : bigLine ≠ "ls" := by
  intro h
  have h1 : bigLine.length = ("ls" : String).length := congrArg String.length h
  rw [bigLine_length] at h1
  have h2 : ("ls" : String).length = 2 := by decide
  omega

theorem bigLine_not_bl : bigLine ∉ (["ls"] : List String) := by
  rw [List.mem_singleton]
  exact bigLine_ne_ls

theorem eval_big_rank1 : history_ranking_function 0 0 1 bigLine.length
    = 200001 := by
  rw [bigLine_length, history_ranking_function_one]
  norm_num

theorem eval_big_step1 :
    scanStep 0 ["ls"] 100000 1 bigLine ⟨[], [], ["ls"]⟩
      = ⟨[(bigLine, 200001)], [⟨100000, bigLine, 200001⟩],
         [bigLine, "ls"]⟩ := by
  rw [scanStep_new 0 ["ls"] 100000 1 bigLine ⟨[], [], ["ls"]⟩
    bigLine_not_bl rfl, eval_big_rank1]
  norm_num [radixsort_add]

theorem eval_big_lookup :
    List.lookup bigLine [(bigLine, 200001)] = some 200001 := by
  rw [List.lookup_cons]
  simp

theorem eval_big_cut_miss :
    radix_cut 100000 200001 bigLine [⟨100000, bigLine, 200001⟩] = none := by
  unfold radix_cut
  norm_num

theorem eval_big_step2 :
    scanStep 0 ["ls"] 100000 2 bigLine
      ⟨[(bigLine, 200001)], [⟨100000, bigLine, 200001⟩], [bigLine, "ls"]⟩
      = ⟨[(bigLine, 200001)], [⟨100000, bigLine, 200001⟩],
         [bigLine, bigLine, "ls"]⟩ := by
  rw [scanStep_miss 0 ["ls"] 100000 2 bigLine
    ⟨[(bigLine, 200001)], [⟨100000, bigLine, 200001⟩], [bigLine, "ls"]⟩
    bigLine_not_bl eval_big_lookup eval_big_cut_miss]

theorem eval_big_scan_two :
    scanLog 0 ["ls"] (radixMaxKey 2) 0 ["ls", bigLine] scanInit
      = ⟨[(bigLine, 200001)], [⟨100000, bigLine, 200001⟩],
         [bigLine, "ls"]⟩ := by
  have hmk : radixMaxKey 2 = 100000 := by decide
  have hls : ("ls" : String) ∈ (["ls"] : List String) := by decide
  simp only [scanLog, hmk]
  rw [scanStep_blacklisted _ _ _ _ _ _ hls]
  show scanStep 0 ["ls"] 100000 1 bigLine ⟨[], [], ["ls"]⟩ = _
  exact eval_big_step1

theorem eval_big_scan_three :
    scanLog 0 ["ls"] (radixMaxKey 3) 0 ["ls", bigLine, bigLine] scanInit
      = ⟨[(bigLine, 200001)], [⟨100000, bigLine, 200001⟩],
         [bigLine, bigLine, "ls"]⟩ := by
  have hmk : radixMaxKey 3 = 100000 := by decide
  have hls : ("ls" : String) ∈ (["ls"] : List String) := by decide
  simp only [scanLog, hmk]
  rw [scanStep_blacklisted _ _ _ _ _ _ hls]
  show scanStep 0 ["ls"] 100000 2 bigLine
    (scanStep 0 ["ls"] 100000 1 bigLine ⟨[], [], ["ls"]⟩) = _
  rw [eval_big_step1, eval_big_step2]

/-! ## C4 -/

/-- C4, counterexample: in the real scan of `["ls", bigLine, bigLine]`
(exclusion set `{"ls"}`), the second occurrence of `bigLine` cuts at the
record's tracked key `200001`; the cut misses (the entry was clamped into
bucket `100000` on insert), and — `assert(radixItem)` being compiled out by
`NDEBUG` and the `if(radixItem)` guard skipping — the scan completes
normally with the occurrence silently dropped: the final state still has
rank `200001` and an unchanged radix entry, and nothing failed. -/
theorem c4_cut_miss_counterexample :
    radix_cut 100000 200001 bigLine [⟨100000, bigLine, 200001⟩] = none ∧
    scanLog 0 ["ls"] (radixMaxKey 3) 0 ["ls", bigLine, bigLine] scanInit
      = ⟨[(bigLine, 200001)], [⟨100000, bigLine, 200001⟩],
         [bigLine, bigLine, "ls"]⟩ :=
  ⟨eval_big_cut_miss, eval_big_scan_three⟩

/-- C4, amended: with `NDEBUG` the `assert(radixItem)` is a no-op and the
`if(radixItem)` guard silently skips the re-ranking on a `radix_cut` miss:
the step records the line into the raw output and leaves the dedup index,
the record's score and the radix sorter untouched — the repeated occurrence
is dropped from re-ranking without any failure. -/
theorem c4_cut_miss_silently_skipped (u : ℕ) (bl : List String)
    (mk i : ℕ) (line : String) (st : ScanState) (r : ℕ)
    (h1 : line ∉ bl) (h2 : List.lookup line st.rankmap = some r)
    (h3 : radix_cut mk r line st.rs = none) :
    scanStep u bl mk i line st = ⟨st.rankmap, st.rs, line :: st.raw⟩ ∧
    List.lookup line (scanStep u bl mk i line st).rankmap = some r := by
  have he := scanStep_miss u bl mk i line st h1 h2 h3
  refine ⟨he, ?_⟩
  rw [he]
  exact h2

/-- Witness for `c4_cut_miss_silently_skipped` at a concrete desynchronised
state (tracked rank `200000`, resident bucket `100000`). -/
theorem c4_cut_miss_silently_skipped_witness :
    scanStep 0 [] 100000 5 "ab"
        ⟨[("ab", 200000)], [⟨100000, "ab", 200000⟩], []⟩
        = ⟨[("ab", 200000)], [⟨100000, "ab", 200000⟩], ["ab"]⟩ ∧
      List.lookup "ab" (scanStep 0 [] 100000 5 "ab"
        ⟨[("ab", 200000)], [⟨100000, "ab", 200000⟩], []⟩).rankmap
        = some 200000 :=
  c4_cut_miss_silently_skipped 0 [] 100000 5 "ab"
    ⟨[("ab", 200000)], [⟨100000, "ab", 200000⟩], []⟩ 200000
    (by simp) (by decide) (by decide)

/-! ## C10 -/

/-- C10, counterexample: `bigLine` occurs twice in the scanned log
`["ls", bigLine, bigLine]`; its accumulated score after the first
occurrence is `200001`, and after the second occurrence it is still
`200001` — not strictly greater — because the re-ranking was silently
skipped on the clamp-induced `radix_cut` miss. -/
theorem c10_score_growth_counterexample :
    List.lookup bigLine (scanLog 0 ["ls"] (radixMaxKey 2) 0
        ["ls", bigLine] scanInit).rankmap = some 200001 ∧
      List.lookup bigLine (scanLog 0 ["ls"] (radixMaxKey 3) 0
        ["ls", bigLine, bigLine] scanInit).rankmap = some 200001 := by
  rw [eval_big_scan_two, eval_big_scan_three]
  exact ⟨eval_big_lookup, eval_big_lookup⟩

/-- C10, amended: when the repeat occurrence's `radix_cut` succeeds, the
re-ranking strictly increases the record's score — the increment is
`⌊10·ln i⌋ + textLength ≥ 6` for occurrence position `i ≥ 2` (every repeat
in a run whose position-0 conversion was not consulted has `i ≥ 2`) —
provided the new metrics stays below `2^32`; on a cut miss the score is
unchanged. -/
theorem c10_rerank_strictly_increases (u : ℕ) (bl : List String)
    (mk i : ℕ) (line : String) (st : ScanState) (r : ℕ) (it : RadixItem)
    (rest : List RadixItem)
    (h1 : line ∉ bl) (h2 : List.lookup line st.rankmap = some r)
    (h3 : radix_cut mk r line st.rs = some (it, rest))
    (hi : 2 ≤ i)
    (hnw : r + (⌊Real.log i * 10⌋).toNat + line.length < 2 ^ 32) :
    List.lookup line (scanStep u bl mk i line st).rankmap
        = some (history_ranking_function u r i line.length) ∧
      r < history_ranking_function u r i line.length := by
  rw [scanStep_hit u bl mk i line st h1 h2 h3]
  constructor
  · show List.lookup line ((line, _) :: st.rankmap) = _
    rw [List.lookup_cons]
    simp
  · rw [history_ranking_function_pos u r line.length (by omega)]
    rw [Nat.mod_eq_of_lt hnw]
    have hfl : (6 : ℤ) ≤ ⌊Real.log i * 10⌋ := by
      rw [← floor_log_two_mul_ten]
      apply Int.floor_mono
      have hlog : Real.log 2 ≤ Real.log i := by
        apply Real.log_le_log (by norm_num)
        exact_mod_cast hi
      nlinarith [hlog]
    omega

/-- Witness for `c10_rerank_strictly_increases`: re-ranking `"ab"` (tracked
rank 17, entry resident at key 17) at occurrence position 2 yields a
strictly larger score. -/
theorem c10_rerank_strictly_increases_witness :
    List.lookup "ab" (scanStep 0 [] 100000 2 "ab"
        ⟨[("ab", 17)], [⟨17, "ab", 17⟩], []⟩).rankmap
        = some (history_ranking_function 0 17 2 ("ab" : String).length) ∧
      17 < history_ranking_function 0 17 2 ("ab" : String).length :=
  c10_rerank_strictly_increases 0 [] 100000 2 "ab"
    ⟨[("ab", 17)], [⟨17, "ab", 17⟩], []⟩ 17 ⟨17, "ab", 17⟩ []
    (by simp) (by decide) (by decide) (by norm_num)
    (by
      have hc : ((2 : ℕ) : ℝ) = 2 := by norm_num
      rw [hc, floor_log_two_mul_ten]
      decide)
